import Mathlib

/-!
Shallow embedding of `src/main.cpp` (shot-boundary detector "shotsegments").

Modelling conventions:
* a decoded grayscale frame (`cv::Mat` after `cvtColor(..., CV_RGB2GRAY)`) is
  its list of pixel intensities in row-major order;
* machine `int` values that stay non-negative (frame indices, scores) are `Nat`;
  the command-line `threshold` and `minDuration` are `int` and kept as `Int`;
* the `double` frame rate and `frame / fps` are modelled as exact rational
  arithmetic, with the C++ int cast (truncation toward zero of a non-negative
  quotient) rendered as the rational floor `⌊·⌋₊`;
* `cv::VideoCapture::read` is abstracted into the input `List Frame`: the list
  holds exactly the decodable frames in playback order;
* failure paths (`return 1` after an error message, a thrown
  `std::out_of_range`) are rendered with `Except`.
-/

namespace ShotSegments

/-- A decoded grayscale frame: its pixel intensities in row-major order. -/
abbrev Frame := List Nat

/-- Per-pixel absolute difference, one cell of `cv::absdiff(current, previous, diffs)`. -/
def pxAbsDiff (a b : Nat) : Nat := ((a : Int) - (b : Int)).natAbs

/-- Sum of the per-pixel absolute differences: `cv::absdiff` followed by
`cv::Scalar s = cv::sum(diffs)`, read off as `s[0]`. -/
def sumAbsDiff (cur prev : Frame) : Nat := (List.zipWith pxAbsDiff cur prev).sum

/-- `int score = s[0] / numPixels;` — mean absolute per-pixel difference,
truncated to integer (the sum is a non-negative integer, so the double
division followed by the int cast is Nat division). -/
def frameScore (cur prev : Frame) (numPixels : Nat) : Nat :=
  sumAbsDiff cur prev / numPixels

/-- `int scoreDiff = std::abs(score - lastScore);` -/
def scoreDelta (score lastScore : Nat) : Nat :=
  ((score : Int) - (lastScore : Int)).natAbs

/-- The dual-threshold cut test `score > threshold && scoreDiff > threshold`. -/
def isCut (score lastScore : Nat) (threshold : Int) : Bool :=
  (threshold < (score : Int)) && (threshold < (scoreDelta score lastScore : Int))

/-- The `while (video.read(currentColor))` loop of `main`: consumes the
remaining frames, carrying `previous`, the frame counter (`int frame`,
starting at 1 for the second decoded frame), `lastScore` and the accumulated
`markers`; returns the final value of `frame` together with `markers`. -/
def scanLoop (threshold : Int) (numPixels : Nat) :
    List Frame → Frame → Nat → Nat → List Nat → Nat × List Nat
  | [], _, frame, _, markers => (frame, markers)
  | cur :: rest, prev, frame, lastScore, markers =>
    scanLoop threshold numPixels rest cur (frame + 1)
      (frameScore cur prev numPixels)
      (if isCut (frameScore cur prev numPixels) lastScore threshold
       then markers ++ [frame] else markers)

/-- The scan phase of `main`: the first `video.read` failing yields the
`"need some frames"` error path (`return 1`); otherwise `numPixels` is fixed
from the first frame, `markers` starts as `[0]`, the loop runs, and finally
`markers.push_back(frame - 1)` appends the closing sentinel. -/
def runScan (frames : List Frame) (threshold : Int) : Except String (List Nat) :=
  match frames with
  | [] => .error ("need some frames")
  | first :: rest =>
    .ok ((scanLoop threshold first.length rest first 1 0 [0]).2 ++
         [(scanLoop threshold first.length rest first 1 0 [0]).1 - 1])

/-- The process exit code of the scan phase: 1 on the error path, 0 otherwise
(the segment-reporting loop that follows never changes the exit code). -/
def mainExit (frames : List Frame) (threshold : Int) : Nat :=
  match runScan frames threshold with
  | .error _ => 1
  | .ok _ => 0

/-- The frame indices the scan loop appends to `markers` as detected cuts,
in encounter order, starting from the given loop state. -/
def cutsFrom (threshold : Int) (numPixels : Nat) :
    List Frame → Frame → Nat → Nat → List Nat
  | [], _, _, _ => []
  | cur :: rest, prev, frame, lastScore =>
    (if isCut (frameScore cur prev numPixels) lastScore threshold
     then [frame] else []) ++
      cutsFrom threshold numPixels rest cur (frame + 1)
        (frameScore cur prev numPixels)

/-- The segment-reporting loop `for (size_t i = 1; i < markers.size(); i++)`:
walks the markers after the first, keeping the previous marker and the
`segment` counter (starting at 0); a pair with `len >= minDuration` increments
the counter and emits one output line, modelled as the tuple
`(segmentNumber, start, end)`; a shorter pair emits nothing and leaves the
counter unchanged. -/
def reportLoop (minDuration : Int) : List Int → Int → Nat → List (Nat × Int × Int)
  | [], _, _ => []
  | m :: rest, prev, segment =>
    if minDuration ≤ m - prev then
      (segment + 1, prev, m) :: reportLoop minDuration rest m (segment + 1)
    else
      reportLoop minDuration rest m segment

/-- The whole reporting pass over the marker list (`markers` is
`std::vector<int>`, kept as `List Int`). -/
def segments (markers : List Int) (minDuration : Int) : List (Nat × Int × Int) :=
  match markers with
  | [] => []
  | m :: rest => reportLoop minDuration rest m 0

/-- The adjacent marker pairs `(markers[i-1], markers[i])` in order. -/
def adjPairs (markers : List Int) : List (Int × Int) := markers.zip markers.tail

/-- Number a list of (start, end) pairs consecutively from `n`. -/
def numberFrom : Nat → List (Int × Int) → List (Nat × Int × Int)
  | _, [] => []
  | n, p :: rest => (n, p.1, p.2) :: numberFrom (n + 1) rest

/-- The three modes of `timespec`: `TS_INPUT`, `TS_OUTPUT`, `TS_DURATION`. -/
inductive TsMode where
  | input
  | output
  | duration

/-- One `std::setfill('0') << std::setw(2)` field: zero-padded to width at
least 2 (wider values print in full, `setw` being a minimum). -/
def fmt2 (n : Nat) : String := if n < 10 then ("0") ++ toString n else toString n

/-- The `HH:MM:SS` rendering at the end of `timespec`:
`hours = totalSeconds / 60 / 60`, `minutes = (totalSeconds / 60) % 60`,
`seconds = totalSeconds % 60`, each zero-padded to two digits. -/
def hhmmss (totalSeconds : Nat) : String :=
  fmt2 (totalSeconds / 60 / 60) ++ (":") ++ fmt2 (totalSeconds / 60 % 60) ++ (":") ++
    fmt2 (totalSeconds % 60)

/-- `std::string timespec(int frame, double fps, int mode)`:
`int totalSeconds = frame / fps;` (the double quotient truncated to int,
modelled as the exact rational floor — frame indices are non-negative), then
per mode: `TS_INPUT` zeroes the within-minute seconds, `TS_OUTPUT` keeps only
the within-minute seconds, `TS_DURATION` adds one second. -/
def timespec (frame : Nat) (fps : ℚ) (mode : TsMode) : String :=
  match mode with
  | .input => hhmmss (⌊(frame : ℚ) / fps⌋₊ - ⌊(frame : ℚ) / fps⌋₊ % 60)
  | .output => hhmmss (⌊(frame : ℚ) / fps⌋₊ % 60)
  | .duration => hhmmss (⌊(frame : ℚ) / fps⌋₊ + 1)

/-- Index of the last '.' in the string, if any: `basis.rfind('.')`, with
`std::string::npos` rendered as `none`. -/
def lastDotIdx : List Char → Option Nat
  | [] => none
  | c :: rest =>
    match lastDotIdx rest with
    | some i => some (i + 1)
    | none => if c = '.' then some 0 else none

/-- `std::string segmentfile(const std::string & basis, int segment)`:
`basis.substr(0, pos) << "-" << segment << basis.substr(pos)` with
`pos = basis.rfind('.')`. When no '.' occurs, `pos` is `npos`:
`substr(0, npos)` would still succeed (the count is clamped) but
`basis.substr(npos)` throws `std::out_of_range` since `npos > size()`, so the
function fails instead of returning a string — rendered as the error value. -/
def segmentfile (basis : List Char) (segment : Nat) : Except String (List Char) :=
  match lastDotIdx basis with
  | none => .error ("std::out_of_range")
  | some pos =>
    .ok (basis.take pos ++ '-' :: (toString segment).data ++ basis.drop pos)

lemma cutsFrom_mem (t : Int) (np : Nat) :
    ∀ (fs : List Frame) (prev : Frame) (frame ls : Nat),
      ∀ x ∈ cutsFrom t np fs prev frame ls, frame ≤ x ∧ x < frame + fs.length := by
  intro fs
  induction fs with
  | nil => intro prev frame ls x hx; simp [cutsFrom] at hx
  | cons cur rest ih =>
    intro prev frame ls x hx
    simp only [cutsFrom, List.mem_append] at hx
    rcases hx with hx | hx
    · have hx' : x = frame := by
        split at hx
        · simpa using hx
        · simp at hx
      subst hx'
      simp only [List.length_cons]
      omega
    · have := ih cur (frame + 1) (frameScore cur prev np) x hx
      simp only [List.length_cons]
      omega

lemma cutsFrom_chain (t : Int) (np : Nat) :
    ∀ (fs : List Frame) (prev : Frame) (frame ls : Nat),
      List.Chain' (· < ·) (cutsFrom t np fs prev frame ls) := by
  intro fs
  induction fs with
  | nil => intro prev frame ls; simp [cutsFrom]
  | cons cur rest ih =>
    intro prev frame ls
    simp only [cutsFrom]
    split
    · rw [List.singleton_append, List.chain'_cons']
      refine ⟨?_, ih cur (frame + 1) (frameScore cur prev np)⟩
      intro y hy
      have hmem : y ∈ cutsFrom t np rest cur (frame + 1) (frameScore cur prev np) :=
        List.mem_of_mem_head? hy
      have := cutsFrom_mem t np rest cur (frame + 1) (frameScore cur prev np) y hmem
      omega
    · simpa using ih cur (frame + 1) (frameScore cur prev np)

lemma scanLoop_eq (t : Int) (np : Nat) :
    ∀ (fs : List Frame) (prev : Frame) (frame ls : Nat) (markers : List Nat),
      scanLoop t np fs prev frame ls markers =
        (frame + fs.length, markers ++ cutsFrom t np fs prev frame ls) := by
  intro fs
  induction fs with
  | nil => intro prev frame ls markers; simp [scanLoop, cutsFrom]
  | cons cur rest ih =>
    intro prev frame ls markers
    simp only [scanLoop, cutsFrom]
    rw [ih]
    simp only [Prod.mk.injEq, List.length_cons]
    constructor
    · omega
    · split <;> simp

lemma runScan_cons (first : Frame) (rest : List Frame) (t : Int) :
    runScan (first :: rest) t =
      .ok (0 :: cutsFrom t first.length rest first 1 0 ++ [rest.length]) := by
  simp [runScan, scanLoop_eq]

lemma chainLt_append_last (l : List Nat) (n : Nat)
    (hl : List.Chain' (· < ·) l) (hb : ∀ x ∈ l, x ≤ n) :
    List.Chain' (· ≤ ·) (l ++ [n]) := by
  induction l with
  | nil => simp
  | cons a l ih =>
    rw [List.chain'_cons'] at hl
    rw [List.cons_append, List.chain'_cons']
    refine ⟨?_, ih hl.2 fun x hx => hb x (List.mem_cons_of_mem _ hx)⟩
    intro y hy
    cases l with
    | nil =>
      simp at hy
      subst hy
      exact hb a (by simp)
    | cons b l' =>
      simp at hy
      subst hy
      exact le_of_lt (hl.1 b (by simp))

/-- C1 (amended): the `"need some frames"` failure with exit code 1 happens
exactly when zero frames can be decoded; a 1-frame stream is not rejected —
it completes the scan with markers `[0, 0]` and exit code 0. -/
theorem stream_too_short_amended (t : Int) :
    (∀ frames : List Frame, mainExit frames t = 1 ↔ frames = []) ∧
    (∀ f : Frame, runScan [f] t = .ok [0, 0] ∧ mainExit [f] t = 0) := by
  constructor
  · intro frames
    cases frames with
    | nil => simp [mainExit, runScan]
    | cons f rest => simp [mainExit, runScan]
  · intro f
    refine ⟨?_, ?_⟩
    · simp [runScan, scanLoop, cutsFrom]
    · simp [mainExit, runScan]

/-- C1 counterexample: a concrete 1-frame stream does not fail — the scan
returns markers `[0, 0]` and the exit code is 0, not 1. -/
theorem one_frame_stream_exits_zero :
    runScan [([0] : Frame)] 50 = .ok [0, 0] ∧ mainExit [([0] : Frame)] 50 ≠ 1 :=
  ⟨rfl, by decide⟩

/-- C2 (amended): for a stream of at least 2 frames the final marker list is
`0 :: cuts ++ [lastIndex]` where `cuts` is the encounter-ordered list of
detected cut indices; `0 :: cuts` is strictly increasing (so each detected cut
appears exactly once there), every cut index lies in `[1, lastIndex]`, the
whole list is non-decreasing of length ≥ 2, starts with 0 and ends with the
final frame index — but the closing sentinel may duplicate the last cut when a
cut is detected at the final frame, so the whole list need not be strictly
increasing. -/
theorem markers_invariant_amended (first : Frame) (rest : List Frame) (t : Int)
    (h : rest ≠ []) :
    runScan (first :: rest) t =
        .ok (0 :: cutsFrom t first.length rest first 1 0 ++ [rest.length]) ∧
    List.Chain' (· < ·) (0 :: cutsFrom t first.length rest first 1 0) ∧
    (∀ x ∈ cutsFrom t first.length rest first 1 0, 1 ≤ x ∧ x ≤ rest.length) ∧
    List.Chain' (· ≤ ·) (0 :: cutsFrom t first.length rest first 1 0 ++ [rest.length]) ∧
    2 ≤ (0 :: cutsFrom t first.length rest first 1 0 ++ [rest.length]).length ∧
    (0 :: cutsFrom t first.length rest first 1 0 ++ [rest.length]).head? = some 0 ∧
    (0 :: cutsFrom t first.length rest first 1 0 ++ [rest.length]).getLast? =
      some rest.length := by
  have hmem := cutsFrom_mem t first.length rest first 1 0
  have hchain : List.Chain' (· < ·) (0 :: cutsFrom t first.length rest first 1 0) := by
    rw [List.chain'_cons']
    refine ⟨?_, cutsFrom_chain t first.length rest first 1 0⟩
    intro y hy
    have := hmem y (List.mem_of_mem_head? hy)
    omega
  refine ⟨runScan_cons first rest t, hchain, ?_, ?_, ?_, rfl, ?_⟩
  · intro x hx
    have := hmem x hx
    omega
  · refine chainLt_append_last _ _ hchain ?_
    intro x hx
    rcases List.mem_cons.mp hx with hx | hx
    · omega
    · have := hmem x hx
      omega
  · simp
  · exact List.getLast?_concat _

/-- C2 witness: the amended invariant instantiated on a concrete 2-frame
stream with a cut at the final frame. -/
theorem markers_invariant_amended_witness :
    runScan [([0] : Frame), [255]] 50 = .ok [0, 1, 1] ∧
    List.Chain' (· < ·) ([0, 1] : List Nat) ∧
    (∀ x ∈ ([1] : List Nat), 1 ≤ x ∧ x ≤ 1) ∧
    List.Chain' (· ≤ ·) ([0, 1, 1] : List Nat) ∧
    2 ≤ ([0, 1, 1] : List Nat).length ∧
    ([0, 1, 1] : List Nat).head? = some 0 ∧
    ([0, 1, 1] : List Nat).getLast? = some 1 :=
  markers_invariant_amended [0] [[255]] 50 (by decide)

/-- C2 counterexample: a 2-frame stream whose second frame triggers a cut
yields markers `[0, 1, 1]` — not strictly increasing, and the detected cut
index 1 does not occur exactly once in the list. -/
theorem markers_not_strictly_increasing :
    runScan [([0] : Frame), [255]] 50 = .ok [0, 1, 1] ∧
    ¬ List.Chain' (· < ·) ([0, 1, 1] : List Nat) ∧
    ¬ ([0, 1, 1] : List Nat).count 1 = 1 :=
  ⟨rfl, by simp [List.chain'_cons], by decide⟩

/-- C3: the scan appends the current frame index to the markers as a detected
cut exactly when `score > threshold` and `|score - lastScore| > threshold`;
the first conjunct ties the detected-cut list `cutsFrom` to the marker list
`runScan` produces, the second characterises membership at the head step. -/
theorem cut_marker_iff :
    (∀ (first : Frame) (rest : List Frame) (t : Int),
        runScan (first :: rest) t =
          .ok (0 :: cutsFrom t first.length rest first 1 0 ++ [rest.length])) ∧
    (∀ (cur prev : Frame) (rest : List Frame) (frame numPixels lastScore : Nat)
        (t : Int),
        frame ∈ cutsFrom t numPixels (cur :: rest) prev frame lastScore ↔
          t < (frameScore cur prev numPixels : Int) ∧
          t < (scoreDelta (frameScore cur prev numPixels) lastScore : Int)) := by
  constructor
  · exact fun f r t => runScan_cons f r t
  · intro cur prev rest frame np ls t
    simp only [cutsFrom, List.mem_append]
    constructor
    · rintro (h | h)
      · split at h
        · next hc =>
            simp only [isCut, Bool.and_eq_true, decide_eq_true_eq] at hc
            exact hc
        · simp at h
      · exfalso
        have := cutsFrom_mem t np rest cur (frame + 1) (frameScore cur prev np) frame h
        omega
    · intro hc
      left
      have hb : isCut (frameScore cur prev np) ls t = true := by
        simp only [isCut, Bool.and_eq_true, decide_eq_true_eq]
        exact hc
      simp [hb]

lemma pxAbsDiff_self (a : Nat) : pxAbsDiff a a = 0 := by
  simp [pxAbsDiff]

lemma sumAbsDiff_self (l : List Nat) : sumAbsDiff l l = 0 := by
  induction l with
  | nil => rfl
  | cons a l ih =>
    simp only [sumAbsDiff, List.zipWith_cons_cons, List.sum_cons, pxAbsDiff_self]
    simpa [sumAbsDiff] using ih

lemma pxAbsDiff_le (a b : Nat) (ha : a ≤ 255) (hb : b ≤ 255) : pxAbsDiff a b ≤ 255 := by
  simp only [pxAbsDiff]
  omega

lemma sumAbsDiff_eq_finsetSum :
    ∀ (l1 l2 : List Nat) (n : Nat), l1.length = n → l2.length = n →
      sumAbsDiff l1 l2 = ∑ i ∈ Finset.range n, pxAbsDiff (l1.getD i 0) (l2.getD i 0) := by
  intro l1
  induction l1 with
  | nil =>
    intro l2 n h1 _
    subst h1
    simp [sumAbsDiff]
  | cons a l1 ih =>
    intro l2 n h1 h2
    cases l2 with
    | nil =>
      rw [← h2] at h1
      simp at h1
    | cons b l2 =>
      cases n with
      | zero => simp at h1
      | succ m =>
        simp only [List.length_cons, Nat.succ.injEq] at h1 h2
        rw [Finset.sum_range_succ']
        simp only [List.getD_cons_succ, List.getD_cons_zero]
        rw [← ih l2 m h1 h2]
        simp only [sumAbsDiff, List.zipWith_cons_cons, List.sum_cons]
        omega

lemma sumAbsDiff_le (l1 l2 : List Nat)
    (h1 : ∀ p ∈ l1, p ≤ 255) (h2 : ∀ p ∈ l2, p ≤ 255) :
    sumAbsDiff l1 l2 ≤ 255 * (List.zipWith pxAbsDiff l1 l2).length := by
  induction l1 generalizing l2 with
  | nil => simp [sumAbsDiff]
  | cons a l1 ih =>
    cases l2 with
    | nil => simp [sumAbsDiff]
    | cons b l2 =>
      have hab := pxAbsDiff_le a b (h1 a (by simp)) (h2 b (by simp))
      have hrest := ih l2 (fun p hp => h1 p (by simp [hp])) (fun p hp => h2 p (by simp [hp]))
      simp only [sumAbsDiff, List.zipWith_cons_cons, List.sum_cons, List.length_cons] at *
      omega

/-- C4: with equal dimensions and at least one pixel, the score is the sum of
per-pixel absolute differences divided (Nat-truncated) by the pixel count;
identical frames score 0, and every score is at most 255 when pixels are
8-bit intensities. -/
theorem frameScore_spec (cur prev : Frame) (n : Nat)
    (hn : n = prev.length) (hlen : cur.length = prev.length) (hpos : 0 < n)
    (hc : ∀ p ∈ cur, p ≤ 255) (hp : ∀ p ∈ prev, p ≤ 255) :
    frameScore cur prev n =
      (∑ i ∈ Finset.range n, pxAbsDiff (cur.getD i 0) (prev.getD i 0)) / n ∧
    (cur = prev → frameScore cur prev n = 0) ∧
    frameScore cur prev n ≤ 255 := by
  subst hn
  refine ⟨?_, ?_, ?_⟩
  · unfold frameScore
    rw [sumAbsDiff_eq_finsetSum cur prev prev.length hlen rfl]
  · intro he
    subst he
    unfold frameScore
    rw [sumAbsDiff_self]
    simp
  · unfold frameScore
    have hb := sumAbsDiff_le cur prev hc hp
    have hlen2 : (List.zipWith pxAbsDiff cur prev).length = prev.length := by
      rw [List.length_zipWith, hlen, Nat.min_self]
    rw [hlen2] at hb
    calc sumAbsDiff cur prev / prev.length
        ≤ 255 * prev.length / prev.length := Nat.div_le_div_right hb
      _ = 255 := Nat.mul_div_cancel 255 hpos

/-- C4 witness: the score contract instantiated on a concrete pair of
2-pixel frames. -/
theorem frameScore_spec_witness :
    (2 : Nat) = ([0, 255] : Frame).length ∧
    ([10, 200] : Frame).length = ([0, 255] : Frame).length ∧
    (0 : Nat) < 2 ∧
    (∀ p ∈ ([10, 200] : Frame), p ≤ 255) ∧
    (∀ p ∈ ([0, 255] : Frame), p ≤ 255) ∧
    (frameScore [10, 200] [0, 255] 2 =
        (∑ i ∈ Finset.range 2,
          pxAbsDiff (([10, 200] : Frame).getD i 0) (([0, 255] : Frame).getD i 0)) / 2 ∧
      (([10, 200] : Frame) = [0, 255] → frameScore [10, 200] [0, 255] 2 = 0) ∧
      frameScore [10, 200] [0, 255] 2 ≤ 255) :=
  ⟨by decide, by decide, by decide, by decide, by decide,
   frameScore_spec [10, 200] [0, 255] 2 (by decide) (by decide) (by decide)
     (by decide) (by decide)⟩

lemma reportLoop_eq (d : Int) :
    ∀ (rest : List Int) (prev : Int) (seg : Nat),
      reportLoop d rest prev seg =
        numberFrom (seg + 1)
          ((adjPairs (prev :: rest)).filter fun p => decide (d ≤ p.2 - p.1)) := by
  intro rest
  induction rest with
  | nil => intro prev seg; simp [reportLoop, adjPairs, numberFrom]
  | cons m rest ih =>
    intro prev seg
    by_cases h : d ≤ m - prev
    · simp [reportLoop, adjPairs, List.filter, List.zip, numberFrom, h, ih m (seg + 1)]
    · simp [reportLoop, adjPairs, List.filter, List.zip, numberFrom, h, ih m seg]

lemma numberFrom_length : ∀ (l : List (Int × Int)) (n : Nat),
    (numberFrom n l).length = l.length := by
  intro l
  induction l with
  | nil => intro n; rfl
  | cons p l ih => intro n; simp [numberFrom, ih]

lemma numberFrom_map_fst : ∀ (l : List (Int × Int)) (n : Nat),
    (numberFrom n l).map Prod.fst = List.range' n l.length := by
  intro l
  induction l with
  | nil => intro n; simp [numberFrom]
  | cons p l ih => intro n; simp [numberFrom, List.range'_succ, ih]

/-- C5: the reporting loop yields exactly the adjacent marker pairs, in
order, that survive the duration filter (`length < minDuration` pairs emit
nothing and consume no number), and the surviving segments carry the
contiguous numbers 1, 2, 3, … with no skips and no resets. -/
theorem segments_numbering (markers : List Int) (minDuration : Int) :
    segments markers minDuration =
      numberFrom 1 ((adjPairs markers).filter fun p => decide (minDuration ≤ p.2 - p.1)) ∧
    (segments markers minDuration).map Prod.fst =
      List.range' 1 (segments markers minDuration).length := by
  have hseg : segments markers minDuration =
      numberFrom 1 ((adjPairs markers).filter fun p => decide (minDuration ≤ p.2 - p.1)) := by
    cases markers with
    | nil => simp [segments, adjPairs, numberFrom]
    | cons m rest => exact reportLoop_eq minDuration rest m 0
  refine ⟨hseg, ?_⟩
  rw [hseg, numberFrom_length]
  exact numberFrom_map_fst _ 1

/-- C6: the `TS_INPUT` seek timecode is the whole-second conversion
`frame / fps` floored to the nearest minute boundary, and its rendered
seconds field is the literal "00". -/
theorem seek_timecode_minute_floor (frame : Nat) (fps : ℚ) (h : 0 < fps) :
    timespec frame fps TsMode.input = hhmmss (60 * (⌊(frame : ℚ) / fps⌋₊ / 60)) ∧
    timespec frame fps TsMode.input =
      fmt2 (60 * (⌊(frame : ℚ) / fps⌋₊ / 60) / 60 / 60) ++ (":") ++
        fmt2 (60 * (⌊(frame : ℚ) / fps⌋₊ / 60) / 60 % 60) ++ (":") ++ ("00") := by
  have key : ⌊(frame : ℚ) / fps⌋₊ - ⌊(frame : ℚ) / fps⌋₊ % 60 =
      60 * (⌊(frame : ℚ) / fps⌋₊ / 60) := by omega
  constructor
  · simp [timespec, key]
  · simp only [timespec, key, hhmmss, Nat.mul_mod_right]
    rfl

/-- C6 witness: the seek timecode contract instantiated at frame 150,
fps 30. -/
theorem seek_timecode_minute_floor_witness :
    (0 : ℚ) < 30 ∧
    (timespec 150 30 TsMode.input = hhmmss (60 * (⌊((150 : Nat) : ℚ) / 30⌋₊ / 60)) ∧
     timespec 150 30 TsMode.input =
       fmt2 (60 * (⌊((150 : Nat) : ℚ) / 30⌋₊ / 60) / 60 / 60) ++ (":") ++
         fmt2 (60 * (⌊((150 : Nat) : ℚ) / 30⌋₊ / 60) / 60 % 60) ++ (":") ++ ("00")) :=
  ⟨by decide, seek_timecode_minute_floor 150 30 (by decide)⟩

/-- C7: the `TS_OUTPUT` offset timecode encodes the seconds-within-minute
remainder of the converted start, and that remainder plus 60 times the floor
of the start's seconds divided by 60 recovers the floored start seconds. -/
theorem offset_timecode_remainder (frame : Nat) (fps : ℚ) (h : 0 < fps) :
    timespec frame fps TsMode.output = hhmmss (⌊(frame : ℚ) / fps⌋₊ % 60) ∧
    ⌊(frame : ℚ) / fps⌋₊ % 60 + 60 * ⌊(frame : ℚ) / fps / 60⌋₊ =
      ⌊(frame : ℚ) / fps⌋₊ := by
  constructor
  · simp [timespec]
  · rw [show ((60 : ℚ)) = ((60 : Nat) : ℚ) by norm_num, Nat.floor_div_nat]
    omega

/-- C7 witness: the offset timecode contract instantiated at frame 150,
fps 30. -/
theorem offset_timecode_remainder_witness :
    (0 : ℚ) < 30 ∧
    (timespec 150 30 TsMode.output = hhmmss (⌊((150 : Nat) : ℚ) / 30⌋₊ % 60) ∧
     ⌊((150 : Nat) : ℚ) / 30⌋₊ % 60 + 60 * ⌊((150 : Nat) : ℚ) / 30 / 60⌋₊ =
       ⌊((150 : Nat) : ℚ) / 30⌋₊) :=
  ⟨by decide, offset_timecode_remainder 150 30 (by decide)⟩

/-- C8: the `TS_DURATION` timecode is the frame-count length converted to
whole seconds plus exactly one second; at fps 30 the spec's example segment
(start frame 150, end frame 330, length 180) renders seek `00:00:00`, offset
`00:00:05` and duration `00:00:07`. -/
theorem duration_timecode_plus_one (len : Nat) (fps : ℚ) (h : 0 < fps) :
    timespec len fps TsMode.duration = hhmmss (⌊(len : ℚ) / fps⌋₊ + 1) ∧
    timespec 150 30 TsMode.input = ("00:00:00") ∧
    timespec 150 30 TsMode.output = ("00:00:05") ∧
    timespec 180 30 TsMode.duration = ("00:00:07") := by
  have h5 : (⌊((150 : Nat) : ℚ) / 30⌋₊ : Nat) = 5 := by
    rw [Nat.floor_eq_iff] <;> norm_num
  have h6 : (⌊((180 : Nat) : ℚ) / 30⌋₊ : Nat) = 6 := by
    rw [Nat.floor_eq_iff] <;> norm_num
  refine ⟨by simp [timespec], ?_, ?_, ?_⟩
  · simp only [timespec, h5]
    rfl
  · simp only [timespec, h5]
    rfl
  · simp only [timespec, h6]
    rfl

/-- C8 witness: the duration timecode contract instantiated at length 180,
fps 30. -/
theorem duration_timecode_plus_one_witness :
    (0 : ℚ) < 30 ∧
    (timespec 180 30 TsMode.duration = hhmmss (⌊((180 : Nat) : ℚ) / 30⌋₊ + 1) ∧
     timespec 150 30 TsMode.input = ("00:00:00") ∧
     timespec 150 30 TsMode.output = ("00:00:05") ∧
     timespec 180 30 TsMode.duration = ("00:00:07")) :=
  ⟨by decide, duration_timecode_plus_one 180 30 (by decide)⟩

lemma lastDotIdx_of_not_mem (l : List Char) (h : '.' ∉ l) : lastDotIdx l = none := by
  induction l with
  | nil => rfl
  | cons c rest ih =>
    have hc : ¬(c = '.') := fun he => h (by simp [he])
    have hr : '.' ∉ rest := fun hm => h (List.mem_cons_of_mem _ hm)
    simp [lastDotIdx, ih hr, hc]

lemma lastDotIdx_append (pre ext : List Char) (h : '.' ∉ ext) :
    lastDotIdx (pre ++ '.' :: ext) = some pre.length := by
  induction pre with
  | nil => simp [lastDotIdx, lastDotIdx_of_not_mem ext h]
  | cons c pre ih => simp [lastDotIdx, ih]

/-- C9: when the input name has an extension (a final '.'-delimited part with
no further '.'), the output name is the input with `-<segment>` inserted
immediately before that final dot. -/
theorem segmentfile_inserts (pre ext : List Char) (n : Nat) (h : '.' ∉ ext) :
    segmentfile (pre ++ '.' :: ext) n =
      .ok (pre ++ '-' :: (toString n).data ++ '.' :: ext) := by
  simp only [segmentfile, lastDotIdx_append pre ext h]
  rw [List.take_left, List.drop_left]

/-- C9 witness: `clip.mp4` with segment 3 yields `clip-3.mp4`. -/
theorem segmentfile_inserts_witness :
    ('.' ∉ ("mp4").data) ∧
    segmentfile (("clip.mp4").data) 3 = .ok (("clip-3.mp4").data) := by
  refine ⟨by decide, ?_⟩
  have h := segmentfile_inserts (("clip").data) (("mp4").data) 3 (by decide)
  exact h

/-- C10: on a dot-free input filename, `rfind` yields `npos` and
`basis.substr(npos)` throws `std::out_of_range`, so `segmentfile` fails
instead of returning a string. -/
theorem segmentfile_no_extension (basis : List Char) (n : Nat) (h : '.' ∉ basis) :
    segmentfile basis n = .error ("std::out_of_range") := by
  simp [segmentfile, lastDotIdx_of_not_mem basis h]

/-- C10 witness: the failure on the concrete dot-free name `clipmp4`. -/
theorem segmentfile_no_extension_witness :
    ('.' ∉ ("clipmp4").data) ∧
    segmentfile (("clipmp4").data) 3 = .error ("std::out_of_range") :=
  ⟨by decide, segmentfile_no_extension (("clipmp4").data) 3 (by decide)⟩

end ShotSegments
